import Mathlib

/-!
# Corsy: a shallow embedding of `corsy.go`

The program collects URLs (`getURLs`), probes each one with a forged
`Origin` header (`scanURL`), and either prints the results (`printResults`)
or writes them to a file (`writeResultsToFile`).

Modelling conventions.

* A Go `string` is a Lean `String` (a sequence of Unicode scalar values).
* A Go `map[string]V` is an association list `List (String × V)`; `mapGet` is
  the lookup `m[k]` and `mapSet` the assignment `m[k] = v`.  A `nil` map and an
  empty map are both `[]`.  A map handed to the program by the HTTP layer
  (`resp.Header`) carries a proof that its keys are pairwise distinct; the list
  order stands for the order in which `range` happens to visit the entries.
  What the HTTP layer guarantees about the spelling of the names is the
  predicate `DeliveredNames`; statements that depend on it assume it.
* Everything outside the source file (URL parsing, the network, the file
  system, the JSON encoder, the Unicode case table) is a field of `Env`.  The
  network is stateful: every `client.Do` receives and returns a world state of
  type `σ`.
* Effects are recorded as a list of `Event`s, in program order.
-/

namespace Corsy

/-! ## Go maps -/

/-- The lookup `m[k]` of a Go map: `some v` when the key is present. -/
def mapGet {V : Type} : List (String × V) → String → Option V
  | [], _ => none
  | (k', v) :: rest, k => if k' = k then some v else mapGet rest k

/-- The assignment `m[k] = v` of a Go map: replaces the value of an existing
key, adds the entry otherwise. -/
def mapSet {V : Type} : List (String × V) → String → V → List (String × V)
  | [], k, v => [(k, v)]
  | (k', v') :: rest, k, v =>
    if k' = k then (k', v) :: rest else (k', v') :: mapSet rest k v

/-- The keys of a Go map. -/
def mapKeys {V : Type} (m : List (String × V)) : List String := m.map Prod.fst

/-! ## The functions of package `strings` the program calls -/

/-- Go's `unicode.ToLower` on one rune: ASCII is handled inline, every other
rune goes through the Unicode case table `tbl`, which is not part of the
repository. -/
def toLowerRune (tbl : Char → Char) (c : Char) : Char :=
  if c.toNat < 128 then
    if 65 ≤ c.toNat ∧ c.toNat ≤ 90 then Char.ofNat (c.toNat + 32) else c
  else tbl c

/-- Go's `strings.ToLower`: every rune mapped to lower case. -/
def ToLower (tbl : Char → Char) (s : String) : String :=
  ⟨s.data.map (toLowerRune tbl)⟩

/-- Substring search on rune lists: is `sub` a contiguous part of the list? -/
def containsChars : List Char → List Char → Bool
  | [], sub => sub.isEmpty
  | c :: cs, sub => sub.isPrefixOf (c :: cs) || containsChars cs sub

/-- Go's `strings.Contains`. -/
def Contains (s substr : String) : Bool := containsChars s.data substr.data

/-- Go's `strings.Join`: the elements separated by `sep`. -/
def Join : List String → String → String
  | [], _ => ""
  | [a], _ => a
  | a :: b :: rest, sep => a ++ sep ++ Join (b :: rest) sep

/-! ## The header names `net/http` delivers

`scanURL` uses a client without a `Transport` of its own, so `resp.Header` is
built by the default transport of `net/http`, which passes every header name of
the response through `canonicalMIMEHeaderKey` of `net/textproto`, rejects the
response when that function does not accept the name, and files the values
under the name it returns. -/

/-- Go's `validHeaderFieldByte`: the characters of an RFC 7230 token (letters,
digits and fifteen punctuation marks, all ASCII). -/
def validHeaderFieldByte (c : Char) : Bool :=
  (48 ≤ c.toNat && c.toNat ≤ 57) || (65 ≤ c.toNat && c.toNat ≤ 90) ||
    (97 ≤ c.toNat && c.toNat ≤ 122) ||
    [33, 35, 36, 37, 38, 39, 42, 43, 45, 46, 94, 95, 96, 124, 126].contains c.toNat

/-- One step of the loop of `canonicalMIMEHeaderKey`: a lower-case letter is
raised when `upper` is set, an upper-case letter is lowered when it is not. -/
def canonicalRune (upper : Bool) (c : Char) : Char :=
  if upper && (97 ≤ c.toNat && c.toNat ≤ 122) then Char.ofNat (c.toNat - 32)
  else if !upper && (65 ≤ c.toNat && c.toNat ≤ 90) then Char.ofNat (c.toNat + 32)
  else c

/-- The loop of `canonicalMIMEHeaderKey`: `upper` is set at the start and after
every `-`. -/
def canonicalRunes : Bool → List Char → List Char
  | _, [] => []
  | upper, c :: rest =>
    canonicalRune upper c :: canonicalRunes (canonicalRune upper c == '-') rest

/-- Go's `canonicalMIMEHeaderKey`: a name with a character that is neither a
token character nor a space is returned unchanged and not accepted; a name with
a space is returned unchanged; every other name is returned with the first
letter and every letter after a `-` in upper case and the other letters in
lower case. -/
def canonicalMIMEHeaderKey (a : String) : String × Bool :=
  if a.data.any (fun c => !validHeaderFieldByte c && c != ' ') then (a, false)
  else if a.data.any (fun c => c == ' ') then (a, true)
  else (⟨canonicalRunes true a.data⟩, true)

/-- The names of the header map are names the HTTP layer delivers: each is what
`canonicalMIMEHeaderKey` returns, accepted, for some name on the wire. -/
def DeliveredNames (header : List (String × List String)) : Prop :=
  ∀ k ∈ mapKeys header, ∃ wire : String, canonicalMIMEHeaderKey wire = (k, true)

/-! ## Data model -/

/-- The record `Result` of the program. -/
structure Result where
  URL : String
  CORSHeaders : List (String × String)
  Misconfigurations : List String
deriving DecidableEq, Repr

/-- The command-line flags `-u`, `-i`, `-o`, `-t`. -/
structure Flags where
  urlFlag : String
  inputFile : String
  outputFile : String
  timeout : Int

/-- What `scanURL` hands to `client.Do`: the method and URL given to
`http.NewRequest` and the request header map. -/
structure Request where
  Method : String
  URL : String
  Header : List (String × List String)
deriving DecidableEq, Repr

/-- The part of `*http.Response` the program reads: the header map
`resp.Header`, a `map[string][]string`, listed in the order `range` visits it.
The type leaves the spelling of the names open; the names the default
transport of `net/http` puts there satisfy `DeliveredNames`. -/
structure Response where
  Header : List (String × List String)
  distinct : (mapKeys Header).Nodup

/-- What opening and scanning the input file yields: `os.Open` fails, or the
scanner delivers `lines` one by one and then `scanner.Err()` is `err`. -/
inductive FileRead where
  | openError (err : String)
  | scanned (lines : List String) (err : Option String)

/-- The observable effects of the program. -/
inductive Event where
  | stdout (s : String)
  | usage
  | httpDo (timeout : Int) (req : Request)
  | closeBody
  | writeFile (filename : String) (data : String)
deriving DecidableEq, Repr

/-- Everything the program calls that is not in its source file. -/
structure Env (σ : Type) where
  /-- the Unicode lower-case mapping of the non-ASCII runes -/
  lowerTable : Char → Char
  /-- the error of `http.NewRequest(method, url, nil)`, if it fails -/
  NewRequest : String → String → Option String
  /-- the call `client.Do(req)` of a client with the given timeout (seconds) -/
  Do : Int → Request → σ → Except String Response × σ
  /-- opening the file and scanning its lines -/
  openScan : String → FileRead
  /-- the call `json.MarshalIndent(results, "", "  ")` -/
  MarshalIndent : List Result → Except String String
  /-- the error of `ioutil.WriteFile(filename, data, 0644)`, if it fails -/
  WriteFile : String → String → Option String

/-! ## Constants -/

def Red : String := "\x1b[31m"
def Green : String := "\x1b[32m"
def Reset : String := "\x1b[0m"

/-- The header name the classifier looks up. -/
def allowOrigin : String := "Access-Control-Allow-Origin"

/-- The origin `scanURL` sends. -/
def evilOrigin : String := "https://evil.com"

/-- The only finding of the classifier. -/
def wildcardFinding : String := "Wildcard or insecure Origin allowed"

/-- The marker of a failed `http.NewRequest`. -/
def creationFailed : String := "Request creation failed"

/-- The marker of a failed `client.Do`. -/
def requestFailed : String := "Request failed"

/-! ## `scanURL` -/

/-- The body of the loop over `resp.Header` (lines 87 to 91). -/
def captureStep (tbl : Char → Char) (corsHeaders : List (String × String))
    (entry : String × List String) : List (String × String) :=
  if Contains (ToLower tbl entry.1) "access-control" then
    mapSet corsHeaders entry.1 (Join entry.2 ", ")
  else corsHeaders

/-- The loop over `resp.Header`, started from the empty map (lines 86 to 91). -/
def captureHeaders (tbl : Char → Char) (header : List (String × List String)) :
    List (String × String) :=
  header.foldl (captureStep tbl) []

/-- The classifier (lines 93 to 98). -/
def classify (corsHeaders : List (String × String)) : List String :=
  match mapGet corsHeaders allowOrigin with
  | some value =>
    if value = "*" ∨ value = evilOrigin then [] ++ [wildcardFinding] else []
  | none => []

/-- The request `scanURL` builds (lines 72 and 78): a GET of `url` whose
header map has the one entry `Origin`. -/
def probeRequest (url : String) : Request :=
  ⟨"GET", url, mapSet [] "Origin" [evilOrigin]⟩

/-- The function `scanURL`: the result, the effects, and the world after. -/
def scanURL {σ : Type} (env : Env σ) (timeout : Int) (url : String) (w : σ) :
    Result × List Event × σ :=
  match env.NewRequest "GET" url with
  | some err =>
    (⟨url, [], [creationFailed]⟩,
      [Event.stdout ("Error creating request for URL " ++ url ++ ": " ++ err ++ "\n")], w)
  | none =>
    let req : Request := probeRequest url
    match env.Do timeout req w with
    | (Except.error err, w') =>
      (⟨url, [], [requestFailed]⟩,
        [Event.httpDo timeout req,
         Event.stdout ("Error making request to URL " ++ url ++ ": " ++ err ++ "\n")], w')
    | (Except.ok resp, w') =>
      let corsHeaders := captureHeaders env.lowerTable resp.Header
      let misconfigurations := classify corsHeaders
      (⟨url, corsHeaders, misconfigurations⟩,
        [Event.httpDo timeout req, Event.closeBody], w')

/-! ## `getURLs` -/

/-- The end of `getURLs` (lines 60 to 65): exit with status 1 on an empty
sequence, return it otherwise.  `Except.error n` stands for `os.Exit(n)`. -/
def finishURLs (urls : List String) : Except Nat (List String) × List Event :=
  if urls.length = 0 then
    (Except.error 1, [Event.stdout "No URLs provided. Use -u or -i flag.\n"])
  else (Except.ok urls, [])

/-- The function `getURLs`: the returned sequence, or the exit status, and
what was printed. -/
def getURLs {σ : Type} (env : Env σ) (flags : Flags) :
    Except Nat (List String) × List Event :=
  let urls : List String := if flags.urlFlag ≠ "" then [] ++ [flags.urlFlag] else []
  if flags.inputFile ≠ "" then
    match env.openScan flags.inputFile with
    | FileRead.openError err =>
      (Except.error 1, [Event.stdout ("Error opening file: " ++ err ++ "\n")])
    | FileRead.scanned lines scanErr =>
      let urls := lines.foldl (fun acc line => acc ++ [line]) urls
      match scanErr with
      | some err =>
        (Except.error 1, [Event.stdout ("Error reading file: " ++ err ++ "\n")])
      | none => finishURLs urls
  else finishURLs urls

/-! ## The result sinks -/

/-- How `%v` prints a `[]string`. -/
def fmtSlice (xs : List String) : String := "[" ++ Join xs " " ++ "]"

/-- How `%v` prints a `map[string]string`: the entries in key order. -/
def fmtMap (m : List (String × String)) : String :=
  "map[" ++
    Join ((m.insertionSort (fun a b => ¬ b.1 < a.1)).map (fun kv => kv.1 ++ ":" ++ kv.2)) " "
    ++ "]"

/-- The separator line of `printResults`. -/
def separator : String := "-------------------------------------------------\n"

/-- The body of the loop of `printResults` (lines 124 to 134). -/
def printResult (result : Result) : List Event :=
  (if result.Misconfigurations.length > 0 then
    [Event.stdout (Red ++ "[!] VULNERABLE: " ++ result.URL ++ Reset ++ "\n"),
     Event.stdout (Red ++ "CORS Headers: " ++ fmtMap result.CORSHeaders ++ Reset ++ "\n"),
     Event.stdout
       (Red ++ "Misconfigurations: " ++ fmtSlice result.Misconfigurations ++ Reset ++ "\n")]
  else
    [Event.stdout (Green ++ "[+] SECURE: " ++ result.URL ++ Reset ++ "\n"),
     Event.stdout (Green ++ "CORS Headers: " ++ fmtMap result.CORSHeaders ++ Reset ++ "\n")])
  ++ [Event.stdout separator]

/-- The function `printResults`: what it prints, call by call. -/
def printResults (results : List Result) : List Event :=
  results.foldl (fun out result => out ++ printResult result) []

/-- The function `writeResultsToFile`. -/
def writeResultsToFile {σ : Type} (env : Env σ) (results : List Result)
    (filename : String) : List Event :=
  match env.MarshalIndent results with
  | Except.error err =>
    [Event.stdout ("Error marshaling results to JSON: " ++ err ++ "\n")]
  | Except.ok data =>
    match env.WriteFile filename data with
    | some err =>
      [Event.writeFile filename data,
       Event.stdout ("Error writing to file: " ++ err ++ "\n")]
    | none => [Event.writeFile filename data]

/-! ## `main` -/

/-- The state of the loop of `main`: the results so far, the effects so far,
the arguments `scanURL` was called with so far, and the world. -/
structure Loop (σ : Type) where
  results : List Result
  events : List Event
  calls : List String
  world : σ

/-- The body of the loop of `main` (lines 152 to 154). -/
def scanStep {σ : Type} (env : Env σ) (timeout : Int) (st : Loop σ) (url : String) :
    Loop σ :=
  let r := scanURL env timeout url st.world
  { results := st.results ++ [r.1]
    events := st.events ++ [Event.stdout ("Scanning URL: " ++ url ++ "\n")] ++ r.2.1
    calls := st.calls ++ [url]
    world := r.2.2 }

/-- The loop of `main` (lines 149 to 155). -/
def scanAll {σ : Type} (env : Env σ) (timeout : Int) (urls : List String) (w : σ) :
    Loop σ :=
  urls.foldl (scanStep env timeout) ⟨[], [], [], w⟩

/-- A run of the program: exit status, effects, the arguments of the calls of
`scanURL`, and the results handed to the sink. -/
structure Run (σ : Type) where
  exit : Nat
  events : List Event
  calls : List String
  results : List Result
  world : σ

/-- The function `main`. -/
def main {σ : Type} (env : Env σ) (flags : Flags) (w : σ) : Run σ :=
  if flags.urlFlag = "" ∧ flags.inputFile = "" then
    { exit := 1
      events :=
        [Event.stdout
          "Error: No URLs provided. Use -u for a single URL or -i for an input file.\n",
         Event.usage]
      calls := [], results := [], world := w }
  else
    match getURLs env flags with
    | (Except.error code, out) =>
      { exit := code, events := out, calls := [], results := [], world := w }
    | (Except.ok urls, out) =>
      let st := scanAll env flags.timeout urls w
      let sink :=
        if flags.outputFile ≠ "" then
          writeResultsToFile env st.results flags.outputFile ++
            [Event.stdout ("Results saved to file: " ++ flags.outputFile ++ "\n")]
        else printResults st.results
      { exit := 0, events := out ++ st.events ++ sink, calls := st.calls,
        results := st.results, world := st.world }

/-! ## Vocabulary of the statements -/

/-- The probe of `url` in world `w` receives the response `resp`: the request
is constructed and `client.Do` returns `resp`, leaving the world `w2`. -/
def Succeeds {σ : Type} (env : Env σ) (timeout : Int) (url : String) (w : σ)
    (resp : Response) (w2 : σ) : Prop :=
  env.NewRequest "GET" url = none ∧
    env.Do timeout (probeRequest url) w = (Except.ok resp, w2)

/-- The event is a network round trip. -/
def Event.isHttpDo : Event → Bool
  | Event.httpDo _ _ => true
  | _ => false

/-- The VULNERABLE block of the console sink: URL, header mapping, findings. -/
def vulnerableBlock (r : Result) : List Event :=
  [Event.stdout (Red ++ "[!] VULNERABLE: " ++ r.URL ++ Reset ++ "\n"),
   Event.stdout (Red ++ "CORS Headers: " ++ fmtMap r.CORSHeaders ++ Reset ++ "\n"),
   Event.stdout (Red ++ "Misconfigurations: " ++ fmtSlice r.Misconfigurations ++ Reset ++ "\n")]

/-- The SECURE block of the console sink: URL and header mapping. -/
def secureBlock (r : Result) : List Event :=
  [Event.stdout (Green ++ "[+] SECURE: " ++ r.URL ++ Reset ++ "\n"),
   Event.stdout (Green ++ "CORS Headers: " ++ fmtMap r.CORSHeaders ++ Reset ++ "\n")]

/-- The console output as the specification words it: result by result, the
VULNERABLE block when the misconfigurations are non-empty and the SECURE block
when they are empty, each block followed by one separator line. -/
def consoleBlocks : List Result → List Event
  | [] => []
  | r :: rest =>
    (if r.Misconfigurations ≠ [] then vulnerableBlock r else secureBlock r) ++
      [Event.stdout separator] ++ consoleBlocks rest

/-! ## A concrete world -/

/-- The header map a sample host answers with. -/
def sampleHeader (url : String) : List (String × List String) :=
  if url = "http://wild.example" then
    [("Content-Type", ["text/html"]), ("Access-Control-Allow-Origin", ["*"]),
     ("Access-Control-Allow-Methods", ["GET", "POST"])]
  else if url = "http://echo.example" then
    [("Access-Control-Allow-Origin", ["https://evil.com"])]
  else if url = "http://strict.example" then
    [("Access-Control-Allow-Origin", ["https://trusted.example.com"]), ("Server", ["s"])]
  else if url = "http://multi.example" then
    [("Access-Control-Allow-Origin", ["*", "https://a.example"])]
  else [("Content-Type", ["text/html"])]

/-- The response of a sample host. -/
def sampleResponse (url : String) : Response :=
  ⟨sampleHeader url, by
    unfold sampleHeader
    repeat' split
    all_goals decide⟩

/-- A world with a few hosts and files: `::` is not a URL, `http://down.example`
refuses the connection, every other host answers with `sampleHeader`; the world
state counts the round trips. -/
def sampleEnv : Env Nat where
  lowerTable := fun c => c
  NewRequest := fun _ url => if url = "::" then some "missing protocol scheme" else none
  Do := fun _ req n =>
    if req.URL = "http://down.example" then (Except.error "connection refused", n + 1)
    else if req.URL = "" then (Except.error "unsupported protocol scheme", n + 1)
    else (Except.ok (sampleResponse req.URL), n + 1)
  openScan := fun path =>
    if path = "urls.txt" then
      FileRead.scanned ["http://wild.example", "", "http://wild.example"] none
    else if path = "empty.txt" then FileRead.scanned [] none
    else FileRead.openError "no such file or directory"
  MarshalIndent := fun _ => Except.error "unsupported"
  WriteFile := fun _ _ => none

/-! ## Go maps: lookup after assignment -/

theorem mapGet_mapSet {V : Type} (m : List (String × V)) (k k2 : String) (v : V) :
    mapGet (mapSet m k v) k2 = if k = k2 then some v else mapGet m k2 := by
  induction m with
  | nil => simp [mapSet, mapGet]
  | cons e rest ih =>
    obtain ⟨k1, v1⟩ := e
    by_cases h1 : k1 = k
    · subst h1
      by_cases h2 : k1 = k2 <;> simp [mapSet, mapGet, h2]
    · by_cases h2 : k1 = k2
      · subst h2
        have h3 : ¬ k = k1 := fun h => h1 h.symm
        simp [mapSet, mapGet, h1, h3]
      · simp [mapSet, mapGet, h1, h2, ih]

theorem mapGet_eq_none_iff {V : Type} (m : List (String × V)) (k : String) :
    mapGet m k = none ↔ k ∉ mapKeys m := by
  induction m with
  | nil => simp [mapGet, mapKeys]
  | cons e rest ih =>
    obtain ⟨k1, v1⟩ := e
    by_cases h : k1 = k
    · simp [mapGet, mapKeys, h]
    · have h2 : ¬ k = k1 := fun h3 => h h3.symm
      simpa [mapGet, mapKeys, h, h2] using ih

theorem mapKeys_mapSet {V : Type} (m : List (String × V)) (k : String) (v : V) :
    mapKeys (mapSet m k v) = if k ∈ mapKeys m then mapKeys m else mapKeys m ++ [k] := by
  induction m with
  | nil => simp [mapSet, mapKeys]
  | cons e rest ih =>
    obtain ⟨k1, v1⟩ := e
    by_cases h1 : k1 = k
    · subst h1
      simp [mapSet, mapKeys]
    · have h2 : ¬ k = k1 := fun h => h1 h.symm
      simp only [mapKeys] at ih
      by_cases hin : k ∈ List.map Prod.fst rest
      · simp [mapSet, mapKeys, h1, h2, ih, hin]
      · simp [mapSet, mapKeys, h1, h2, ih, hin]

theorem mapSet_distinct {V : Type} (m : List (String × V)) (k : String) (v : V)
    (h : (mapKeys m).Nodup) : (mapKeys (mapSet m k v)).Nodup := by
  rw [mapKeys_mapSet]
  by_cases hin : k ∈ mapKeys m
  · simpa [hin] using h
  · rw [if_neg hin]
    exact List.Nodup.append h (List.nodup_singleton k) (by simpa using hin)

theorem mem_mapKeys_iff {V : Type} (m : List (String × V)) (k : String) :
    k ∈ mapKeys m ↔ ∃ v, mapGet m k = some v := by
  rw [← not_iff_not, ← mapGet_eq_none_iff]
  cases mapGet m k <;> simp

/-! ## The string functions against the library notions -/

theorem containsChars_iff_infix (l sub : List Char) :
    containsChars l sub = true ↔ sub <:+: l := by
  induction l with
  | nil => simp [containsChars, List.isEmpty_iff]
  | cons c cs ih =>
    simp only [containsChars, Bool.or_eq_true, ih, List.infix_cons_iff,
      List.isPrefixOf_iff_prefix]

theorem intercalate_go_eq (sep : String) (rest : List String) (acc : String) :
    String.intercalate.go acc sep rest =
      match rest with
      | [] => acc
      | _ :: _ => acc ++ sep ++ Join rest sep := by
  induction rest generalizing acc with
  | nil => rfl
  | cons a tail ih =>
    rw [String.intercalate.go, ih]
    cases tail with
    | nil => rfl
    | cons b bs => simp [Join, String.append_assoc]

theorem Join_eq_intercalate (values : List String) (sep : String) :
    Join values sep = sep.intercalate values := by
  cases values with
  | nil => rfl
  | cons a tail =>
    rw [String.intercalate, intercalate_go_eq]
    cases tail with
    | nil => rfl
    | cons b bs => simp [Join, String.append_assoc]

theorem Contains_iff_infix (s substr : String) :
    Contains s substr = true ↔ substr.data <:+: s.data :=
  containsChars_iff_infix s.data substr.data

/-! ## The header-extraction loop, entry by entry -/

theorem captureStep_get (tbl : Char → Char) (acc : List (String × String))
    (e : String × List String) (k : String) :
    mapGet (captureStep tbl acc e) k =
      if e.1 = k ∧ Contains (ToLower tbl e.1) "access-control" = true then
        some (Join e.2 ", ")
      else mapGet acc k := by
  unfold captureStep
  by_cases hc : Contains (ToLower tbl e.1) "access-control" = true
  · simp [hc, mapGet_mapSet]
  · simp [hc]

theorem foldl_captureStep_get (tbl : Char → Char) (header : List (String × List String))
    (hd : (mapKeys header).Nodup) (acc : List (String × String)) (k : String) :
    mapGet (header.foldl (captureStep tbl) acc) k =
      if Contains (ToLower tbl k) "access-control" = true then
        match mapGet header k with
        | some values => some (Join values ", ")
        | none => mapGet acc k
      else mapGet acc k := by
  induction header generalizing acc with
  | nil => simp [mapGet]
  | cons e rest ih =>
    obtain ⟨k1, vs1⟩ := e
    have hd2 : (mapKeys rest).Nodup := by
      simp [mapKeys] at hd ⊢
      exact hd.2
    have hnot : k1 ∉ mapKeys rest := by
      simp [mapKeys] at hd ⊢
      exact hd.1
    rw [List.foldl_cons, ih hd2, captureStep_get]
    by_cases h : k1 = k
    · subst h
      have hnone : mapGet rest k1 = none := (mapGet_eq_none_iff rest k1).2 hnot
      by_cases hc : Contains (ToLower tbl k1) "access-control" = true
      · simp [hc, hnone, mapGet]
      · simp [hc]
    · simp [h, mapGet]

theorem foldl_captureStep_distinct (tbl : Char → Char) (header : List (String × List String))
    (acc : List (String × String)) (h : (mapKeys acc).Nodup) :
    (mapKeys (header.foldl (captureStep tbl) acc)).Nodup := by
  induction header generalizing acc with
  | nil => simpa using h
  | cons e rest ih =>
    rw [List.foldl_cons]
    apply ih
    unfold captureStep
    split
    · exact mapSet_distinct _ _ _ h
    · exact h

theorem captureHeaders_get (tbl : Char → Char) (resp : Response) (k : String) :
    mapGet (captureHeaders tbl resp.Header) k =
      if Contains (ToLower tbl k) "access-control" = true then
        (mapGet resp.Header k).map (fun values => Join values ", ")
      else none := by
  unfold captureHeaders
  rw [foldl_captureStep_get tbl resp.Header resp.distinct]
  cases mapGet resp.Header k <;> simp [mapGet]

/-! ## `scanURL`, exit by exit -/

theorem scanURL_of_succeeds {σ : Type} (env : Env σ) (timeout : Int) (url : String)
    (w : σ) (resp : Response) (w2 : σ) (h : Succeeds env timeout url w resp w2) :
    scanURL env timeout url w =
      (⟨url, captureHeaders env.lowerTable resp.Header,
          classify (captureHeaders env.lowerTable resp.Header)⟩,
        [Event.httpDo timeout (probeRequest url), Event.closeBody], w2) := by
  unfold scanURL
  rw [h.1]
  simp only [h.2]

theorem scanURL_of_creation_error {σ : Type} (env : Env σ) (timeout : Int) (url : String)
    (w : σ) (err : String) (h : env.NewRequest "GET" url = some err) :
    scanURL env timeout url w =
      (⟨url, [], [creationFailed]⟩,
        [Event.stdout ("Error creating request for URL " ++ url ++ ": " ++ err ++ "\n")], w) := by
  unfold scanURL
  rw [h]

theorem scanURL_of_transport_error {σ : Type} (env : Env σ) (timeout : Int) (url : String)
    (w : σ) (err : String) (w2 : σ) (h1 : env.NewRequest "GET" url = none)
    (h2 : env.Do timeout (probeRequest url) w = (Except.error err, w2)) :
    scanURL env timeout url w =
      (⟨url, [], [requestFailed]⟩,
        [Event.httpDo timeout (probeRequest url),
         Event.stdout ("Error making request to URL " ++ url ++ ": " ++ err ++ "\n")], w2) := by
  unfold scanURL
  rw [h1]
  simp only [h2]

theorem scanURL_url {σ : Type} (env : Env σ) (timeout : Int) (url : String) (w : σ) :
    (scanURL env timeout url w).1.URL = url := by
  unfold scanURL
  cases env.NewRequest "GET" url with
  | some err => rfl
  | none =>
    simp only
    rcases hdo : env.Do timeout (probeRequest url) w with ⟨res, w2⟩
    cases res <;> rfl

theorem classify_cases (corsHeaders : List (String × String)) :
    classify corsHeaders =
      if mapGet corsHeaders allowOrigin = some "*" ∨
          mapGet corsHeaders allowOrigin = some evilOrigin then [wildcardFinding]
      else [] := by
  unfold classify
  cases hg : mapGet corsHeaders allowOrigin with
  | none => simp
  | some value => by_cases hv : value = "*" ∨ value = evilOrigin <;> simp [hv]

/-! ## The claims about `scanURL` -/

/-- C1: on a successful response the misconfigurations of the result is the
one-element sequence holding the wildcard-or-insecure-origin finding when
`corsHeaders` stores `*` or `https://evil.com` under `Access-Control-Allow-Origin`,
and is empty for every other stored value and when the key is absent. -/
theorem scanURL_misconfigurations_by_stored_origin {σ : Type} (env : Env σ) (timeout : Int)
    (url : String) (w : σ) (resp : Response) (w2 : σ)
    (h : Succeeds env timeout url w resp w2) :
    ((mapGet (scanURL env timeout url w).1.CORSHeaders "Access-Control-Allow-Origin" = some "*" ∨
        mapGet (scanURL env timeout url w).1.CORSHeaders "Access-Control-Allow-Origin"
          = some "https://evil.com") →
      (scanURL env timeout url w).1.Misconfigurations = [wildcardFinding]) ∧
    (∀ value : String,
      mapGet (scanURL env timeout url w).1.CORSHeaders "Access-Control-Allow-Origin" = some value →
      value ≠ "*" → value ≠ "https://evil.com" →
      (scanURL env timeout url w).1.Misconfigurations = []) ∧
    (mapGet (scanURL env timeout url w).1.CORSHeaders "Access-Control-Allow-Origin" = none →
      (scanURL env timeout url w).1.Misconfigurations = []) := by
  rw [scanURL_of_succeeds env timeout url w resp w2 h]
  simp only [classify_cases, allowOrigin, evilOrigin]
  refine ⟨fun hv => by simp [hv], fun value hv h1 h2 => ?_, fun hn => by simp [hn]⟩
  simp [hv, h1, h2]

/-- The sample host `http://wild.example` answers `Access-Control-Allow-Origin: *`
and the result carries exactly the finding (C1 at a concrete input). -/
theorem scanURL_misconfigurations_by_stored_origin_witness :
    Succeeds sampleEnv 10 "http://wild.example" 0 (sampleResponse "http://wild.example") 1 ∧
      (scanURL sampleEnv 10 "http://wild.example" 0).1.Misconfigurations = [wildcardFinding] :=
  ⟨⟨by decide, rfl⟩,
    (scanURL_misconfigurations_by_stored_origin sampleEnv 10 "http://wild.example" 0
      (sampleResponse "http://wild.example") 1 ⟨by decide, rfl⟩).1 (Or.inl (by decide))⟩

theorem allowOrigin_is_captured (tbl : Char → Char) :
    Contains (ToLower tbl "Access-Control-Allow-Origin") "access-control" = true := by
  rfl

/-- C2, as stated, fails: the sample host `http://multi.example` sends the
header `Access-Control-Allow-Origin` with the two values `*` and
`https://a.example`; the value `*` is one of them, yet the result has no
finding, because the classifier compares the joined string `*, https://a.example`. -/
theorem scanURL_multi_valued_origin_not_flagged :
    Succeeds sampleEnv 10 "http://multi.example" 0 (sampleResponse "http://multi.example") 1 ∧
      mapGet (sampleResponse "http://multi.example").Header "Access-Control-Allow-Origin"
        = some ["*", "https://a.example"] ∧
      "*" ∈ ["*", "https://a.example"] ∧
      (scanURL sampleEnv 10 "http://multi.example" 0).1.CORSHeaders
        = [("Access-Control-Allow-Origin", "*, https://a.example")] ∧
      (scanURL sampleEnv 10 "http://multi.example" 0).1.Misconfigurations = [] :=
  ⟨⟨by decide, rfl⟩, by decide, by decide, by decide, by decide⟩

/-- C2, amended: on a successful response whose header map holds
`Access-Control-Allow-Origin` with exactly one value, that value being `*` or
`https://evil.com`, the misconfigurations of the result contains the wildcard
finding and is non-empty. -/
theorem scanURL_flags_single_valued_origin {σ : Type} (env : Env σ) (timeout : Int)
    (url : String) (w : σ) (resp : Response) (w2 : σ)
    (h : Succeeds env timeout url w resp w2) (value : String)
    (hv : value = "*" ∨ value = "https://evil.com")
    (hh : mapGet resp.Header "Access-Control-Allow-Origin" = some [value]) :
    wildcardFinding ∈ (scanURL env timeout url w).1.Misconfigurations ∧
      (scanURL env timeout url w).1.Misconfigurations ≠ [] := by
  rw [scanURL_of_succeeds env timeout url w resp w2 h]
  have hget : mapGet (captureHeaders env.lowerTable resp.Header) allowOrigin = some value := by
    rw [captureHeaders_get]
    simp only [allowOrigin, allowOrigin_is_captured, hh]
    rfl
  simp only [classify_cases, hget, evilOrigin]
  rcases hv with hv | hv <;> simp [hv]

/-- The sample host `http://echo.example` reflects the forged origin as the one
value of the header, and the finding is reported (amended C2 at a concrete
input). -/
theorem scanURL_flags_single_valued_origin_witness :
    mapGet (sampleResponse "http://echo.example").Header "Access-Control-Allow-Origin"
        = some ["https://evil.com"] ∧
      wildcardFinding ∈ (scanURL sampleEnv 10 "http://echo.example" 0).1.Misconfigurations ∧
      (scanURL sampleEnv 10 "http://echo.example" 0).1.Misconfigurations ≠ [] :=
  ⟨by decide,
    scanURL_flags_single_valued_origin sampleEnv 10 "http://echo.example" 0
      (sampleResponse "http://echo.example") 1 ⟨by decide, rfl⟩ "https://evil.com"
      (Or.inr rfl) (by decide)⟩

/-- C3: on a successful response the keys of `corsHeaders` are exactly the
names of the response header map whose lower-cased form contains
`access-control`; each such key maps to the values of that header joined with
`, ` in their order; a response without `Access-Control-Allow-Origin` gives a
`corsHeaders` without that key; and no key occurs twice. -/
theorem scanURL_corsHeaders_exact {σ : Type} (env : Env σ) (timeout : Int)
    (url : String) (w : σ) (resp : Response) (w2 : σ)
    (h : Succeeds env timeout url w resp w2) :
    (∀ k : String, k ∈ mapKeys (scanURL env timeout url w).1.CORSHeaders ↔
      (k ∈ mapKeys resp.Header ∧
        Contains (ToLower env.lowerTable k) "access-control" = true)) ∧
    (∀ (k : String) (values : List String), mapGet resp.Header k = some values →
      Contains (ToLower env.lowerTable k) "access-control" = true →
      mapGet (scanURL env timeout url w).1.CORSHeaders k = some (Join values ", ")) ∧
    ("Access-Control-Allow-Origin" ∉ mapKeys resp.Header →
      "Access-Control-Allow-Origin" ∉ mapKeys (scanURL env timeout url w).1.CORSHeaders) ∧
    (mapKeys (scanURL env timeout url w).1.CORSHeaders).Nodup := by
  rw [scanURL_of_succeeds env timeout url w resp w2 h]
  have hkeys : ∀ k : String, k ∈ mapKeys (captureHeaders env.lowerTable resp.Header) ↔
      (k ∈ mapKeys resp.Header ∧
        Contains (ToLower env.lowerTable k) "access-control" = true) := by
    intro k
    rw [mem_mapKeys_iff, mem_mapKeys_iff, captureHeaders_get]
    by_cases hc : Contains (ToLower env.lowerTable k) "access-control" = true
    · cases mapGet resp.Header k <;> simp [hc]
    · simp [hc]
  refine ⟨hkeys, fun k values hk hc => ?_, fun hno hin => hno ((hkeys _).1 hin).1,
    foldl_captureStep_distinct _ _ _ (by simp [mapKeys])⟩
  simp only [captureHeaders_get, hc, hk]
  rfl

/-- The sample host `http://wild.example` sends three headers, two of them CORS
headers; both are captured, the two values of one joined in order, and
`Content-Type` is not (C3 at a concrete input). -/
theorem scanURL_corsHeaders_exact_witness :
    Succeeds sampleEnv 10 "http://wild.example" 0 (sampleResponse "http://wild.example") 1 ∧
      (∀ k : String, k ∈ mapKeys (scanURL sampleEnv 10 "http://wild.example" 0).1.CORSHeaders ↔
        (k ∈ mapKeys (sampleResponse "http://wild.example").Header ∧
          Contains (ToLower sampleEnv.lowerTable k) "access-control" = true)) ∧
      mapGet (scanURL sampleEnv 10 "http://wild.example" 0).1.CORSHeaders
        "Access-Control-Allow-Methods" = some "GET, POST" ∧
      mapGet (scanURL sampleEnv 10 "http://wild.example" 0).1.CORSHeaders "Content-Type" = none :=
  ⟨⟨by decide, rfl⟩,
    (scanURL_corsHeaders_exact sampleEnv 10 "http://wild.example" 0
      (sampleResponse "http://wild.example") 1 ⟨by decide, rfl⟩).1,
    by decide, by decide⟩

/-- C4: when request construction fails `scanURL` returns a result with no
`corsHeaders` entry and the single marker `Request creation failed`, and no
request is sent (no round trip among the effects, the world untouched); when
the transport fails it returns a result with no `corsHeaders` entry and the
single marker `Request failed`. -/
theorem scanURL_failure_markers {σ : Type} (env : Env σ) (timeout : Int) (url : String)
    (w : σ) :
    (∀ err : String, env.NewRequest "GET" url = some err →
      (scanURL env timeout url w).1.CORSHeaders = [] ∧
      (scanURL env timeout url w).1.Misconfigurations = ["Request creation failed"] ∧
      (∀ e ∈ (scanURL env timeout url w).2.1, Event.isHttpDo e = false) ∧
      (scanURL env timeout url w).2.2 = w) ∧
    (∀ (err : String) (w2 : σ), env.NewRequest "GET" url = none →
      env.Do timeout (probeRequest url) w = (Except.error err, w2) →
      (scanURL env timeout url w).1.CORSHeaders = [] ∧
      (scanURL env timeout url w).1.Misconfigurations = ["Request failed"]) := by
  constructor
  · intro err herr
    rw [scanURL_of_creation_error env timeout url w err herr]
    refine ⟨rfl, rfl, ?_, rfl⟩
    intro e he
    simp only [List.mem_singleton] at he
    subst he
    rfl
  · intro err w2 h1 h2
    rw [scanURL_of_transport_error env timeout url w err w2 h1 h2]
    exact ⟨rfl, rfl⟩

/-- In the sample world `::` is not a URL and `http://down.example` refuses the
connection: each gives an empty `corsHeaders` and its own marker (C4 at
concrete inputs). -/
theorem scanURL_failure_markers_witness :
    (sampleEnv.NewRequest "GET" "::" = some "missing protocol scheme" ∧
      (scanURL sampleEnv 10 "::" 0).1.CORSHeaders = [] ∧
      (scanURL sampleEnv 10 "::" 0).1.Misconfigurations = ["Request creation failed"] ∧
      (∀ e ∈ (scanURL sampleEnv 10 "::" 0).2.1, Event.isHttpDo e = false) ∧
      (scanURL sampleEnv 10 "::" 0).2.2 = 0) ∧
    (sampleEnv.Do 10 (probeRequest "http://down.example") 0
        = (Except.error "connection refused", 1) ∧
      (scanURL sampleEnv 10 "http://down.example" 0).1.CORSHeaders = [] ∧
      (scanURL sampleEnv 10 "http://down.example" 0).1.Misconfigurations = ["Request failed"]) :=
  ⟨⟨by decide,
      (scanURL_failure_markers sampleEnv 10 "::" 0).1 "missing protocol scheme" (by decide)⟩,
    ⟨rfl,
      (scanURL_failure_markers sampleEnv 10 "http://down.example" 0).2 "connection refused" 1
        (by decide) rfl⟩⟩

/-! ## The loop of `main` -/

theorem foldl_scanStep_urls {σ : Type} (env : Env σ) (timeout : Int) (urls : List String)
    (st : Loop σ) :
    (urls.foldl (scanStep env timeout) st).results.map Result.URL
        = st.results.map Result.URL ++ urls ∧
      (urls.foldl (scanStep env timeout) st).calls = st.calls ++ urls := by
  induction urls generalizing st with
  | nil => simp
  | cons u rest ih =>
    rw [List.foldl_cons]
    obtain ⟨h1, h2⟩ := ih (scanStep env timeout st u)
    rw [h1, h2]
    simp [scanStep, scanURL_url]

theorem scanAll_urls {σ : Type} (env : Env σ) (timeout : Int) (urls : List String) (w : σ) :
    (scanAll env timeout urls w).results.map Result.URL = urls := by
  have h := (foldl_scanStep_urls env timeout urls ⟨[], [], [], w⟩).1
  simpa [scanAll] using h

theorem finishURLs_ok (urls out : List String) (ev : List Event)
    (h : finishURLs urls = (Except.ok out, ev)) : out = urls ∧ urls ≠ [] ∧ ev = [] := by
  unfold finishURLs at h
  by_cases h0 : urls.length = 0
  · simp [h0] at h
  · simp only [h0, if_false, Prod.mk.injEq, Except.ok.injEq] at h
    refine ⟨h.1.symm, ?_, h.2.symm⟩
    intro hnil
    exact h0 (by simp [hnil])

theorem main_of_getURLs_ok {σ : Type} (env : Env σ) (flags : Flags) (w : σ)
    (urls : List String) (out : List Event)
    (h : getURLs env flags = (Except.ok urls, out)) :
    (main env flags w).exit = 0 ∧
      (main env flags w).results = (scanAll env flags.timeout urls w).results ∧
      (main env flags w).calls = (scanAll env flags.timeout urls w).calls := by
  have hflags : ¬ (flags.urlFlag = "" ∧ flags.inputFile = "") := by
    rintro ⟨h1, h2⟩
    simp [getURLs, h1, h2, finishURLs] at h
  unfold main
  rw [if_neg hflags, h]
  exact ⟨rfl, rfl, rfl⟩

/-- C5: the loop of the orchestrator gives, for every URL sequence and every
outcome of the probes, one result per URL, the result at position `i` carrying
the URL at position `i` unchanged (duplicates included); a run of `main` that
gets `urls` from `getURLs` hands exactly these results to the sink. -/
theorem main_results_follow_urls {σ : Type} (env : Env σ) (flags : Flags) (w : σ)
    (urls : List String) :
    (scanAll env flags.timeout urls w).results.length = urls.length ∧
    (∀ i : Nat, ((scanAll env flags.timeout urls w).results[i]?).map Result.URL = urls[i]?) ∧
    (∀ out : List Event, getURLs env flags = (Except.ok urls, out) →
      (main env flags w).results.length = urls.length ∧
      (∀ i : Nat, ((main env flags w).results[i]?).map Result.URL = urls[i]?)) := by
  have hmap := scanAll_urls env flags.timeout urls w
  have hlen : (scanAll env flags.timeout urls w).results.length = urls.length := by
    have := congrArg List.length hmap
    simpa using this
  have hget : ∀ i : Nat,
      ((scanAll env flags.timeout urls w).results[i]?).map Result.URL = urls[i]? := by
    intro i
    rw [← List.getElem?_map, hmap]
  refine ⟨hlen, hget, fun out hout => ?_⟩
  rw [(main_of_getURLs_ok env flags w urls out hout).2.1]
  exact ⟨hlen, hget⟩

/-- A run over `-u http://down.example` and the three lines of `urls.txt` (one
blank, one URL twice): four results, in input order, whatever each probe met
(C5 at a concrete input). -/
theorem main_results_follow_urls_witness :
    (getURLs sampleEnv ⟨"http://down.example", "urls.txt", "", 10⟩).1
        = Except.ok ["http://down.example", "http://wild.example", "", "http://wild.example"] ∧
      (main sampleEnv ⟨"http://down.example", "urls.txt", "", 10⟩ 0).results.length = 4 ∧
      (∀ i : Nat,
        ((main sampleEnv ⟨"http://down.example", "urls.txt", "", 10⟩ 0).results[i]?).map
            Result.URL
          = ["http://down.example", "http://wild.example", "", "http://wild.example"][i]?) :=
  ⟨rfl,
    (main_results_follow_urls sampleEnv ⟨"http://down.example", "urls.txt", "", 10⟩ 0
      ["http://down.example", "http://wild.example", "", "http://wild.example"]).2.2 [] rfl⟩

/-! ## `getURLs` -/

theorem foldl_append_line (lines urls : List String) :
    lines.foldl (fun acc line => acc ++ [line]) urls = urls ++ lines := by
  induction lines generalizing urls with
  | nil => simp
  | cons l rest ih => simp [ih]

theorem getURLs_of_scanned {σ : Type} (env : Env σ) (flags : Flags) (lines : List String)
    (hfile : flags.inputFile ≠ "")
    (hread : env.openScan flags.inputFile = FileRead.scanned lines none) :
    getURLs env flags =
      finishURLs ((if flags.urlFlag ≠ "" then [flags.urlFlag] else []) ++ lines) := by
  unfold getURLs
  simp only [hfile, ne_eq, not_false_eq_true, if_true, hread, foldl_append_line,
    List.nil_append]

theorem getURLs_nonempty {σ : Type} (env : Env σ) (flags : Flags) (urls : List String)
    (out : List Event) (h : getURLs env flags = (Except.ok urls, out)) : urls ≠ [] := by
  unfold getURLs at h
  by_cases hfile : flags.inputFile ≠ ""
  · rw [if_pos hfile] at h
    cases hread : env.openScan flags.inputFile with
    | openError err =>
      rw [hread] at h
      simp at h
    | scanned lines scanErr =>
      rw [hread] at h
      cases scanErr with
      | some err => simp at h
      | none =>
        obtain ⟨h1, h2, _⟩ := finishURLs_ok _ _ _ h
        rw [h1]
        exact h2
  · rw [if_neg hfile] at h
    obtain ⟨h1, h2, _⟩ := finishURLs_ok _ _ _ h
    rw [h1]
    exact h2

/-- C6, as stated, fails: with an empty `-u` and the readable, empty file
`empty.txt`, `getURLs` does not return the (empty) sequence of the file lines; it
prints a message and exits with status 1. -/
theorem getURLs_empty_file_exits :
    sampleEnv.openScan "empty.txt" = FileRead.scanned [] none ∧
      getURLs sampleEnv ⟨"", "empty.txt", "", 10⟩
        = (Except.error 1, [Event.stdout "No URLs provided. Use -u or -i flag.\n"]) :=
  ⟨rfl, rfl⟩

/-- C6, amended: for every `-u` value and every readable input file such that
the `-u` value is non-empty or the file has a line, `getURLs` returns the `-u`
value first (when it is non-empty) followed by every line of the file in file
order, blank lines and duplicates kept; so a non-empty `-u` value and a file of
`n` lines give `n + 1` elements. -/
theorem getURLs_returns_flag_then_lines {σ : Type} (env : Env σ) (flags : Flags)
    (lines : List String) (hfile : flags.inputFile ≠ "")
    (hread : env.openScan flags.inputFile = FileRead.scanned lines none)
    (hne : flags.urlFlag ≠ "" ∨ lines ≠ []) :
    getURLs env flags =
        (Except.ok ((if flags.urlFlag ≠ "" then [flags.urlFlag] else []) ++ lines), []) ∧
      (flags.urlFlag ≠ "" →
        getURLs env flags = (Except.ok (flags.urlFlag :: lines), []) ∧
        (flags.urlFlag :: lines).length = lines.length + 1) := by
  rw [getURLs_of_scanned env flags lines hfile hread]
  have hlen : ¬ ((if flags.urlFlag ≠ "" then [flags.urlFlag] else []) ++ lines).length = 0 := by
    rcases hne with h | h
    · simp [h]
    · cases lines with
      | nil => exact absurd rfl h
      | cons l rest => simp
  constructor
  · unfold finishURLs
    rw [if_neg hlen]
  · intro hu
    unfold finishURLs
    rw [if_neg hlen]
    simp [hu]

/-- A `-u` value and the three lines of `urls.txt`, one of them blank and one
URL twice: four elements, the `-u` value first (amended C6 at a concrete
input). -/
theorem getURLs_returns_flag_then_lines_witness :
    sampleEnv.openScan "urls.txt"
        = FileRead.scanned ["http://wild.example", "", "http://wild.example"] none ∧
      getURLs sampleEnv ⟨"http://echo.example", "urls.txt", "", 10⟩
        = (Except.ok ["http://echo.example", "http://wild.example", "", "http://wild.example"],
            []) :=
  ⟨rfl,
    (getURLs_returns_flag_then_lines sampleEnv ⟨"http://echo.example", "urls.txt", "", 10⟩
      ["http://wild.example", "", "http://wild.example"] (by decide) rfl
      (Or.inl (by decide))).1⟩

/-- C7: when the gathered URL sequence is empty (`-u` and `-i` both empty, or
`-u` empty and the `-i` file without a line) the process exits with status 1,
`scanURL` is never called and no request is sent; and `getURLs` returns only
non-empty sequences. -/
theorem main_exits_on_empty_urls {σ : Type} (env : Env σ) (flags : Flags) (w : σ) :
    (flags.urlFlag = "" → flags.inputFile = "" →
      (main env flags w).exit = 1 ∧ (main env flags w).calls = [] ∧
      (∀ e ∈ (main env flags w).events, Event.isHttpDo e = false)) ∧
    (flags.urlFlag = "" → flags.inputFile ≠ "" →
      env.openScan flags.inputFile = FileRead.scanned [] none →
      (main env flags w).exit = 1 ∧ (main env flags w).calls = [] ∧
      (∀ e ∈ (main env flags w).events, Event.isHttpDo e = false)) ∧
    (∀ (urls : List String) (out : List Event),
      getURLs env flags = (Except.ok urls, out) → urls ≠ []) := by
  refine ⟨fun hu hi => ?_, fun hu hi hread => ?_, fun urls out h =>
    getURLs_nonempty env flags urls out h⟩
  · have hmain : main env flags w =
        { exit := 1
          events :=
            [Event.stdout
              "Error: No URLs provided. Use -u for a single URL or -i for an input file.\n",
             Event.usage]
          calls := [], results := [], world := w } := by
      unfold main
      rw [if_pos ⟨hu, hi⟩]
    rw [hmain]
    refine ⟨rfl, rfl, ?_⟩
    intro e he
    simp only [List.mem_cons, List.mem_singleton, List.not_mem_nil, or_false] at he
    rcases he with he | he <;> subst he <;> rfl
  · have hget : getURLs env flags =
        (Except.error 1, [Event.stdout "No URLs provided. Use -u or -i flag.\n"]) := by
      rw [getURLs_of_scanned env flags [] hi hread]
      simp [hu, finishURLs]
    have hmain : main env flags w =
        { exit := 1, events := [Event.stdout "No URLs provided. Use -u or -i flag.\n"],
          calls := [], results := [], world := w } := by
      unfold main
      rw [if_neg (fun hboth => hi hboth.2), hget]
    rw [hmain]
    refine ⟨rfl, rfl, ?_⟩
    intro e he
    simp only [List.mem_singleton] at he
    subst he
    rfl

/-- Without `-u` and `-i`, and with `-i empty.txt` alone, the sample run exits
with status 1 before any call of `scanURL` (C7 at concrete inputs). -/
theorem main_exits_on_empty_urls_witness :
    ((main sampleEnv ⟨"", "", "", 10⟩ 0).exit = 1 ∧
      (main sampleEnv ⟨"", "", "", 10⟩ 0).calls = [] ∧
      (∀ e ∈ (main sampleEnv ⟨"", "", "", 10⟩ 0).events, Event.isHttpDo e = false)) ∧
    ((main sampleEnv ⟨"", "empty.txt", "", 10⟩ 0).exit = 1 ∧
      (main sampleEnv ⟨"", "empty.txt", "", 10⟩ 0).calls = [] ∧
      (∀ e ∈ (main sampleEnv ⟨"", "empty.txt", "", 10⟩ 0).events, Event.isHttpDo e = false)) :=
  ⟨(main_exits_on_empty_urls sampleEnv ⟨"", "", "", 10⟩ 0).1 rfl rfl,
    (main_exits_on_empty_urls sampleEnv ⟨"", "empty.txt", "", 10⟩ 0).2.1 rfl (by decide) rfl⟩

/-! ## Results and their headers -/

theorem classify_congr (c1 c2 : List (String × String))
    (h : ∀ k : String, mapGet c1 k = mapGet c2 k) : classify c1 = classify c2 := by
  unfold classify
  rw [h allowOrigin]

/-- C8, as stated, fails: in the sample world the probe of `::` (not a URL)
and the probe of `http://down.example` (connection refused) return results with
the same, empty `corsHeaders` and different misconfigurations. -/
theorem scanURL_failure_paths_share_headers :
    (scanURL sampleEnv 10 "::" 0).1.CORSHeaders
        = (scanURL sampleEnv 10 "http://down.example" 0).1.CORSHeaders ∧
      (∀ k : String, mapGet (scanURL sampleEnv 10 "::" 0).1.CORSHeaders k
        = mapGet (scanURL sampleEnv 10 "http://down.example" 0).1.CORSHeaders k) ∧
      (scanURL sampleEnv 10 "::" 0).1.Misconfigurations = ["Request creation failed"] ∧
      (scanURL sampleEnv 10 "http://down.example" 0).1.Misconfigurations = ["Request failed"] ∧
      (scanURL sampleEnv 10 "::" 0).1.Misconfigurations
        ≠ (scanURL sampleEnv 10 "http://down.example" 0).1.Misconfigurations :=
  ⟨by decide, fun _ => rfl, by decide, by decide, by decide⟩

/-- C8, amended: among the results `scanURL` returns after receiving a
response, the misconfigurations is a function of `corsHeaders` alone: two such
results, for any URLs, worlds and responses, whose `corsHeaders` are equal as
mappings have equal misconfigurations. -/
theorem scanURL_success_misconfigurations_from_headers {σ τ : Type} (env1 : Env σ)
    (env2 : Env τ) (timeout1 timeout2 : Int) (url1 url2 : String) (w1 v1 : σ) (w2 v2 : τ)
    (resp1 resp2 : Response) (h1 : Succeeds env1 timeout1 url1 w1 resp1 v1)
    (h2 : Succeeds env2 timeout2 url2 w2 resp2 v2)
    (heq : ∀ k : String, mapGet (scanURL env1 timeout1 url1 w1).1.CORSHeaders k
      = mapGet (scanURL env2 timeout2 url2 w2).1.CORSHeaders k) :
    (scanURL env1 timeout1 url1 w1).1.Misconfigurations
      = (scanURL env2 timeout2 url2 w2).1.Misconfigurations := by
  rw [scanURL_of_succeeds env1 timeout1 url1 w1 resp1 v1 h1] at heq ⊢
  rw [scanURL_of_succeeds env2 timeout2 url2 w2 resp2 v2 h2] at heq ⊢
  exact classify_congr _ _ heq

/-- The hosts `http://wild.example` and `http://echo.example` answer with
different headers; two probes of the first, in different worlds and with
different timeouts, agree on `corsHeaders` and so on the misconfigurations
(amended C8 at a concrete input). -/
theorem scanURL_success_misconfigurations_from_headers_witness :
    Succeeds sampleEnv 10 "http://wild.example" 0 (sampleResponse "http://wild.example") 1 ∧
      Succeeds sampleEnv 3 "http://wild.example" 7 (sampleResponse "http://wild.example") 8 ∧
      (scanURL sampleEnv 10 "http://wild.example" 0).1.Misconfigurations
        = (scanURL sampleEnv 3 "http://wild.example" 7).1.Misconfigurations :=
  ⟨⟨by decide, rfl⟩, ⟨by decide, rfl⟩,
    scanURL_success_misconfigurations_from_headers sampleEnv sampleEnv 10 3
      "http://wild.example" "http://wild.example" 0 1 7 8
      (sampleResponse "http://wild.example") (sampleResponse "http://wild.example")
      ⟨by decide, rfl⟩ ⟨by decide, rfl⟩ (fun _ => rfl)⟩

/-! ## The console sink -/

theorem printResult_eq (r : Result) :
    printResult r =
      (if r.Misconfigurations ≠ [] then vulnerableBlock r else secureBlock r) ++
        [Event.stdout separator] := by
  unfold printResult vulnerableBlock secureBlock
  cases hm : r.Misconfigurations with
  | nil => simp
  | cons a rest => simp

theorem foldl_printResult (results : List Result) (out : List Event) :
    results.foldl (fun out result => out ++ printResult result) out
      = out ++ consoleBlocks results := by
  induction results generalizing out with
  | nil => simp [consoleBlocks]
  | cons r rest ih =>
    rw [List.foldl_cons, ih, printResult_eq]
    simp [consoleBlocks]

/-- C9: in console mode `printResults` emits, for every result sequence, one
block per result in sequence order, each followed by one separator line: the
VULNERABLE block (URL, header mapping, findings) exactly when the
misconfigurations of the result are non-empty and the SECURE block (URL, header
mapping) exactly when they are empty; the two kinds of block never coincide;
and a result carrying only the request-failure marker is rendered as
VULNERABLE. -/
theorem printResults_blocks (results : List Result) :
    printResults results = consoleBlocks results ∧
    (∀ r r2 : Result, vulnerableBlock r ≠ secureBlock r2) ∧
    (∀ url : String,
      printResults [⟨url, [], ["Request failed"]⟩]
        = vulnerableBlock ⟨url, [], ["Request failed"]⟩ ++ [Event.stdout separator]) := by
  refine ⟨?_, fun r r2 hblock => ?_, fun url => ?_⟩
  · unfold printResults
    rw [foldl_printResult]
    simp
  · have hlen := congrArg List.length hblock
    simp [vulnerableBlock, secureBlock] at hlen
  · unfold printResults
    rw [foldl_printResult]
    simp [consoleBlocks]

/-- A vulnerable and a secure result, printed: three red lines and a separator,
then two green lines and a separator (C9 at a concrete input). -/
theorem printResults_blocks_witness :
    printResults
        [⟨"http://a.example", [("Access-Control-Allow-Origin", "*")],
            ["Wildcard or insecure Origin allowed"]⟩,
         ⟨"http://b.example", [], []⟩]
      = [Event.stdout "\x1b[31m[!] VULNERABLE: http://a.example\x1b[0m\n",
         Event.stdout "\x1b[31mCORS Headers: map[Access-Control-Allow-Origin:*]\x1b[0m\n",
         Event.stdout
           "\x1b[31mMisconfigurations: [Wildcard or insecure Origin allowed]\x1b[0m\n",
         Event.stdout "-------------------------------------------------\n",
         Event.stdout "\x1b[32m[+] SECURE: http://b.example\x1b[0m\n",
         Event.stdout "\x1b[32mCORS Headers: map[]\x1b[0m\n",
         Event.stdout "-------------------------------------------------\n"] :=
  (printResults_blocks _).1.trans (by decide)

/-! ## The casing of the header name -/

theorem toNat_ofNat_of_lt (n : Nat) (h : n < 128) : (Char.ofNat n).toNat = n := by
  have hv : n.isValidChar := Or.inl (by omega)
  rw [Char.ofNat, dif_pos hv]
  simp [Char.ofNatAux, Char.toNat, UInt32.toNat]

theorem char_eq_of_toNat_eq (c d : Char) (h : c.toNat = d.toNat) : c = d := by
  rw [← Char.ofNat_toNat c, ← Char.ofNat_toNat d, h]


theorem validHeaderFieldByte_lt (c : Char) (h : validHeaderFieldByte c = true) :
    c.toNat < 128 := by
  simp [validHeaderFieldByte] at h
  omega

theorem toLowerRune_toNat (tbl : Char → Char) (c : Char) (h : c.toNat < 128) :
    (toLowerRune tbl c).toNat =
      if 65 ≤ c.toNat ∧ c.toNat ≤ 90 then c.toNat + 32 else c.toNat := by
  unfold toLowerRune
  rw [if_pos h]
  by_cases hu : 65 ≤ c.toNat ∧ c.toNat ≤ 90
  · rw [if_pos hu, if_pos hu, toNat_ofNat_of_lt _ (by omega)]
  · rw [if_neg hu, if_neg hu]

theorem canonicalRune_fixed (upper : Bool) (c : Char) (h : canonicalRune upper c = c) :
    (upper = true → ¬ (97 ≤ c.toNat ∧ c.toNat ≤ 122)) ∧
      (upper = false → ¬ (65 ≤ c.toNat ∧ c.toNat ≤ 90)) := by
  constructor
  · intro hu hr
    have h2 := congrArg Char.toNat h
    simp only [canonicalRune, hu, Bool.true_and, decide_eq_true_eq, hr.1, hr.2,
      Bool.and_self, if_true] at h2
    rw [toNat_ofNat_of_lt _ (by omega)] at h2
    omega
  · intro hu hr
    have h2 := congrArg Char.toNat h
    simp only [canonicalRune, hu, Bool.false_and, Bool.not_false, Bool.true_and,
      decide_eq_true_eq, hr.1, hr.2, Bool.and_self, if_true] at h2
    simp at h2
    rw [toNat_ofNat_of_lt _ (by omega)] at h2
    omega

theorem canonicalRune_determined (tbl : Char → Char) (upper : Bool) (c d : Char)
    (hc : c.toNat < 128) (hd : d.toNat < 128) (fc : canonicalRune upper c = c)
    (fd : canonicalRune upper d = d) (hl : toLowerRune tbl c = toLowerRune tbl d) : c = d := by
  apply char_eq_of_toNat_eq
  have h := congrArg Char.toNat hl
  rw [toLowerRune_toNat tbl c hc, toLowerRune_toNat tbl d hd] at h
  have h1 := canonicalRune_fixed upper c fc
  have h2 := canonicalRune_fixed upper d fd
  cases upper with
  | true =>
    have a1 := h1.1 rfl
    have a2 := h2.1 rfl
    by_cases b1 : 65 ≤ c.toNat ∧ c.toNat ≤ 90 <;> by_cases b2 : 65 ≤ d.toNat ∧ d.toNat ≤ 90
    · rw [if_pos b1, if_pos b2] at h
      omega
    · rw [if_pos b1, if_neg b2] at h
      omega
    · rw [if_neg b1, if_pos b2] at h
      omega
    · rw [if_neg b1, if_neg b2] at h
      exact h
  | false =>
    have a1 := h1.2 rfl
    have a2 := h2.2 rfl
    rw [if_neg a1, if_neg a2] at h
    exact h

theorem canonicalRunes_determined (tbl : Char → Char) (l m : List Char) (upper : Bool)
    (hl : ∀ c ∈ l, c.toNat < 128) (hm : ∀ c ∈ m, c.toNat < 128)
    (fl : canonicalRunes upper l = l) (fm : canonicalRunes upper m = m)
    (h : l.map (toLowerRune tbl) = m.map (toLowerRune tbl)) : l = m := by
  induction l generalizing m upper with
  | nil =>
    cases m with
    | nil => rfl
    | cons d rest => simp at h
  | cons c rest ih =>
    cases m with
    | nil => simp at h
    | cons d rest2 =>
      simp only [List.map_cons, List.cons.injEq] at h
      simp only [canonicalRunes, List.cons.injEq] at fl fm
      have hcd : c = d :=
        canonicalRune_determined tbl upper c d (hl c (List.mem_cons_self _ _))
          (hm d (List.mem_cons_self _ _)) fl.1 fm.1 h.1
      subst hcd
      have fl2 := fl.2
      have fm2 := fm.2
      rw [fl.1] at fl2 fm2
      rw [ih rest2 (c == '-') (fun x hx => hl x (List.mem_cons_of_mem _ hx))
        (fun x hx => hm x (List.mem_cons_of_mem _ hx)) fl2 fm2 h.2]

theorem ToLower_allowOrigin (tbl : Char → Char) :
    ToLower tbl "Access-Control-Allow-Origin" = "access-control-allow-origin" := rfl

theorem canonical_allowOrigin_of_lower (tbl : Char → Char) (k : String)
    (hk : canonicalMIMEHeaderKey k = (k, true))
    (hl : ToLower tbl k = ToLower tbl "Access-Control-Allow-Origin") :
    k = "Access-Control-Allow-Origin" := by
  have hdata : k.data.map (toLowerRune tbl)
      = "Access-Control-Allow-Origin".data.map (toLowerRune tbl) := by
    have := congrArg String.data hl
    simpa [ToLower] using this
  unfold canonicalMIMEHeaderKey at hk
  by_cases hbad : k.data.any (fun c => !validHeaderFieldByte c && c != ' ') = true
  · rw [if_pos hbad] at hk
    simp at hk
  · rw [if_neg hbad] at hk
    have hvalid : ∀ c ∈ k.data, validHeaderFieldByte c = true ∨ c = ' ' := by
      intro c hc
      by_cases hv : validHeaderFieldByte c = true
      · exact Or.inl hv
      · right
        by_contra hsp
        apply hbad
        rw [List.any_eq_true]
        exact ⟨c, hc, by simp [hv, hsp]⟩
    by_cases hspace : k.data.any (fun c => c == ' ') = true
    · exfalso
      rw [List.any_eq_true] at hspace
      obtain ⟨c, hc, hceq⟩ := hspace
      have hceq2 : c = ' ' := by simpa using hceq
      subst hceq2
      have hmem : toLowerRune tbl ' ' ∈ k.data.map (toLowerRune tbl) :=
        List.mem_map_of_mem _ hc
      rw [hdata] at hmem
      have hsp : toLowerRune tbl ' ' = ' ' := rfl
      rw [hsp] at hmem
      have hlow : "Access-Control-Allow-Origin".data.map (toLowerRune tbl)
          = "access-control-allow-origin".data := rfl
      rw [hlow] at hmem
      revert hmem
      decide
    · rw [if_neg hspace] at hk
      have hfix : canonicalRunes true k.data = k.data := by
        have := congrArg (fun p : String × Bool => p.1.data) hk
        simpa using this
      have hascii : ∀ c ∈ k.data, c.toNat < 128 := by
        intro c hc
        rcases hvalid c hc with hv | hsp
        · exact validHeaderFieldByte_lt c hv
        · exfalso
          apply hspace
          rw [List.any_eq_true]
          exact ⟨c, hc, by simp [hsp]⟩
      have hkd : k.data = "Access-Control-Allow-Origin".data :=
        canonicalRunes_determined tbl k.data "Access-Control-Allow-Origin".data true hascii
          (by decide) hfix (by decide) hdata
      exact String.ext hkd


theorem canonicalRune_toNat (upper : Bool) (c : Char) (h : c.toNat < 128) :
    (canonicalRune upper c).toNat =
      if upper = true ∧ 97 ≤ c.toNat ∧ c.toNat ≤ 122 then c.toNat - 32
      else if upper = false ∧ 65 ≤ c.toNat ∧ c.toNat ≤ 90 then c.toNat + 32
      else c.toNat := by
  unfold canonicalRune
  cases upper with
  | true =>
    by_cases hr : 97 ≤ c.toNat ∧ c.toNat ≤ 122
    · simp only [hr.1, hr.2, decide_True, Bool.and_self, if_true, and_self]
      exact toNat_ofNat_of_lt _ (by omega)
    · have hr2 : ¬ ((decide (97 ≤ c.toNat) && decide (c.toNat ≤ 122)) = true) := by
        simpa using hr
      simp [hr2, hr]
  | false =>
    by_cases hr : 65 ≤ c.toNat ∧ c.toNat ≤ 90
    · simp only [hr.1, hr.2, decide_True, Bool.and_self, if_true, and_self, Bool.false_and,
        Bool.not_false, Bool.false_eq_true, false_and, if_false]
      exact toNat_ofNat_of_lt _ (by omega)
    · have hr2 : ¬ ((decide (65 ≤ c.toNat) && decide (c.toNat ≤ 90)) = true) := by
        simpa using hr
      simp [hr2, hr]

theorem canonicalRune_valid (upper : Bool) (c : Char) (h : validHeaderFieldByte c = true) :
    validHeaderFieldByte (canonicalRune upper c) = true := by
  have hlt := validHeaderFieldByte_lt c h
  have hn := canonicalRune_toNat upper c hlt
  simp only [validHeaderFieldByte] at h ⊢
  rw [hn]
  simp at h ⊢
  split <;> [skip; split] <;> omega

theorem canonicalRune_idem (upper : Bool) (c : Char) (h : c.toNat < 128) :
    canonicalRune upper (canonicalRune upper c) = canonicalRune upper c := by
  apply char_eq_of_toNat_eq
  have hn := canonicalRune_toNat upper c h
  have hlt : (canonicalRune upper c).toNat < 128 := by
    rw [hn]
    split <;> [skip; split] <;> omega
  rw [canonicalRune_toNat upper _ hlt, hn]
  cases upper <;> simp <;> split <;> intros <;> omega

theorem canonicalRunes_idem (upper : Bool) (l : List Char) (h : ∀ c ∈ l, c.toNat < 128) :
    canonicalRunes upper (canonicalRunes upper l) = canonicalRunes upper l := by
  induction l generalizing upper with
  | nil => rfl
  | cons c rest ih =>
    simp only [canonicalRunes]
    rw [canonicalRune_idem upper c (h c (List.mem_cons_self _ _)),
      ih _ (fun x hx => h x (List.mem_cons_of_mem _ hx))]

theorem canonicalRunes_valid (upper : Bool) (l : List Char)
    (h : ∀ c ∈ l, validHeaderFieldByte c = true) :
    ∀ c ∈ canonicalRunes upper l, validHeaderFieldByte c = true := by
  induction l generalizing upper with
  | nil => simp [canonicalRunes]
  | cons d rest ih =>
    intro c hc
    simp only [canonicalRunes, List.mem_cons] at hc
    rcases hc with hc | hc
    · rw [hc]
      exact canonicalRune_valid upper d (h d (List.mem_cons_self _ _))
    · exact ih _ (fun x hx => h x (List.mem_cons_of_mem _ hx)) c hc


theorem canonicalMIMEHeaderKey_fixed (a b : String)
    (h : canonicalMIMEHeaderKey a = (b, true)) : canonicalMIMEHeaderKey b = (b, true) := by
  unfold canonicalMIMEHeaderKey at h
  by_cases hbad : a.data.any (fun c => !validHeaderFieldByte c && c != ' ') = true
  · rw [if_pos hbad] at h
    simp at h
  · rw [if_neg hbad] at h
    by_cases hspace : a.data.any (fun c => c == ' ') = true
    · rw [if_pos hspace] at h
      have hab : a = b := congrArg Prod.fst h
      subst hab
      unfold canonicalMIMEHeaderKey
      rw [if_neg hbad, if_pos hspace]
    · rw [if_neg hspace] at h
      have hb : b.data = canonicalRunes true a.data := by
        have := congrArg (fun p : String × Bool => p.1.data) h
        simpa using this.symm
      have hvalid : ∀ c ∈ a.data, validHeaderFieldByte c = true := by
        intro c hc
        by_cases hv : validHeaderFieldByte c = true
        · exact hv
        · exfalso
          have hsp : ¬ c = ' ' := by
            intro hsp
            apply hspace
            rw [List.any_eq_true]
            exact ⟨c, hc, by simp [hsp]⟩
          apply hbad
          rw [List.any_eq_true]
          exact ⟨c, hc, by simp [hv, hsp]⟩
      have hvalidb : ∀ c ∈ b.data, validHeaderFieldByte c = true := by
        rw [hb]
        exact canonicalRunes_valid true a.data hvalid
      have hbad2 : ¬ b.data.any (fun c => !validHeaderFieldByte c && c != ' ') = true := by
        rw [List.any_eq_true]
        rintro ⟨c, hc, hcond⟩
        simp [hvalidb c hc] at hcond
      have hspace2 : ¬ b.data.any (fun c => c == ' ') = true := by
        rw [List.any_eq_true]
        rintro ⟨c, hc, hcond⟩
        have hceq : c = ' ' := by simpa using hcond
        have hv := hvalidb c hc
        rw [hceq] at hv
        exact absurd hv (by decide)
      unfold canonicalMIMEHeaderKey
      rw [if_neg hbad2, if_neg hspace2, hb,
        canonicalRunes_idem true a.data (fun c hc => validHeaderFieldByte_lt c (hvalid c hc))]
      have hbs : b = ⟨canonicalRunes true a.data⟩ := String.ext hb
      rw [← hbs]

theorem deliveredNames_iff_fixed (header : List (String × List String)) :
    DeliveredNames header ↔ ∀ k ∈ mapKeys header, canonicalMIMEHeaderKey k = (k, true) := by
  constructor
  · intro h k hk
    obtain ⟨wire, hw⟩ := h k hk
    exact canonicalMIMEHeaderKey_fixed wire k hw
  · intro h k hk
    exact ⟨k, h k hk⟩

theorem mem_mapKeys_captureHeaders (tbl : Char → Char) (resp : Response) (k : String) :
    k ∈ mapKeys (captureHeaders tbl resp.Header) ↔
      (k ∈ mapKeys resp.Header ∧ Contains (ToLower tbl k) "access-control" = true) := by
  rw [mem_mapKeys_iff, mem_mapKeys_iff, captureHeaders_get]
  by_cases hc : Contains (ToLower tbl k) "access-control" = true
  · cases mapGet resp.Header k <;> simp [hc]
  · simp [hc]

/-- C10: the header-extraction step and the classifier agree on one casing of
the header name.  On a successful response whose header names are names the
HTTP layer delivers, every header captured into `corsHeaders` whose name equals
`Access-Control-Allow-Origin` ignoring letter case is stored under exactly that
key, the key the classifier looks up; so such a captured header with value `*`
or `https://evil.com` produces the finding, and so does such a response header
with that single value. -/
theorem scanURL_origin_casing_agrees {σ : Type} (env : Env σ) (timeout : Int)
    (url : String) (w : σ) (resp : Response) (w2 : σ)
    (h : Succeeds env timeout url w resp w2) (hnames : DeliveredNames resp.Header) :
    (∀ k : String, k ∈ mapKeys (scanURL env timeout url w).1.CORSHeaders →
      ToLower env.lowerTable k = ToLower env.lowerTable "Access-Control-Allow-Origin" →
      k = "Access-Control-Allow-Origin") ∧
    (∀ k value : String, mapGet (scanURL env timeout url w).1.CORSHeaders k = some value →
      ToLower env.lowerTable k = ToLower env.lowerTable "Access-Control-Allow-Origin" →
      value = "*" ∨ value = "https://evil.com" →
      (scanURL env timeout url w).1.Misconfigurations = [wildcardFinding]) ∧
    (∀ k value : String, mapGet resp.Header k = some [value] →
      ToLower env.lowerTable k = ToLower env.lowerTable "Access-Control-Allow-Origin" →
      value = "*" ∨ value = "https://evil.com" →
      mapGet (scanURL env timeout url w).1.CORSHeaders "Access-Control-Allow-Origin"
        = some value ∧
      (scanURL env timeout url w).1.Misconfigurations = [wildcardFinding]) := by
  rw [scanURL_of_succeeds env timeout url w resp w2 h]
  have hfixed := (deliveredNames_iff_fixed resp.Header).1 hnames
  have hkey : ∀ k : String, k ∈ mapKeys resp.Header →
      ToLower env.lowerTable k = ToLower env.lowerTable "Access-Control-Allow-Origin" →
      k = "Access-Control-Allow-Origin" := fun k hk hl =>
    canonical_allowOrigin_of_lower env.lowerTable k (hfixed k hk) hl
  have hflag : ∀ value : String, value = "*" ∨ value = "https://evil.com" →
      mapGet (captureHeaders env.lowerTable resp.Header) allowOrigin = some value →
      classify (captureHeaders env.lowerTable resp.Header) = [wildcardFinding] := by
    intro value hv hget
    simp only [classify_cases, hget, evilOrigin]
    rcases hv with hv | hv <;> simp [hv]
  refine ⟨fun k hk hl => ?_, fun k value hget hl hv => ?_, fun k value hget hl hv => ?_⟩
  · exact hkey k ((mem_mapKeys_captureHeaders _ _ _).1 hk).1 hl
  · have hk : k ∈ mapKeys (captureHeaders env.lowerTable resp.Header) :=
      (mem_mapKeys_iff _ _).2 ⟨value, hget⟩
    have hkeq := hkey k ((mem_mapKeys_captureHeaders _ _ _).1 hk).1 hl
    subst hkeq
    exact hflag value hv hget
  · have hkeq := hkey k ((mem_mapKeys_iff _ _).2 ⟨[value], hget⟩) hl
    subst hkeq
    have hstored : mapGet (captureHeaders env.lowerTable resp.Header) allowOrigin
        = some value := by
      rw [captureHeaders_get]
      simp only [allowOrigin, allowOrigin_is_captured, hget]
      rfl
    exact ⟨hstored, hflag value hv hstored⟩

/-- A name sent in lower case is delivered as `Access-Control-Allow-Origin`; the
sample host `http://wild.example` delivers names of that form, among them this
one with the value `*`, and the finding is produced (C10 at a concrete
input). -/
theorem scanURL_origin_casing_agrees_witness :
    canonicalMIMEHeaderKey "access-control-allow-origin"
        = ("Access-Control-Allow-Origin", true) ∧
      DeliveredNames (sampleResponse "http://wild.example").Header ∧
      (scanURL sampleEnv 10 "http://wild.example" 0).1.Misconfigurations = [wildcardFinding] :=
  ⟨by decide, (deliveredNames_iff_fixed _).2 (by decide),
    (scanURL_origin_casing_agrees sampleEnv 10 "http://wild.example" 0
      (sampleResponse "http://wild.example") 1 ⟨by decide, rfl⟩
      ((deliveredNames_iff_fixed _).2 (by decide))).2.1 "Access-Control-Allow-Origin" "*"
      (by decide) rfl (Or.inl rfl)⟩

end Corsy
